import Mathlib

/-!
Verification of `typeExg_matlab_eig.h`: type conversions between Eigen
dynamic matrices and MATLAB `mxArray`s.

The header provides four templated functions — a 2D and a 3D overload of
`eigen2matlab` (export) and of `matlab2eigen` (import) — plus the
`hpers_TEMatEig::getMatlabType<T>` class-id resolver.  Both sides exchange
flat column-major element buffers, and the import functions take a
`copy_mem` flag, so the development models the process heap explicitly: a
store of flat buffers at element granularity in which both `mxArray` data
and Eigen matrix storage live.  This makes aliasing between the two sides —
or its absence — expressible.
-/

/-- The MATLAB class identifiers (`mxClassID`) that appear in the header:
the ten numeric classes produced by the `getMatlabType` specialisations and
the `mxUNKNOWN_CLASS` sentinel of the primary template. -/
inductive MxClassID where
  | mxUNKNOWN_CLASS
  | mxINT8_CLASS
  | mxUINT8_CLASS
  | mxINT16_CLASS
  | mxUINT16_CLASS
  | mxINT32_CLASS
  | mxUINT32_CLASS
  | mxINT64_CLASS
  | mxUINT64_CLASS
  | mxSINGLE_CLASS
  | mxDOUBLE_CLASS
  deriving DecidableEq

/-- The C++ scalar element types that `getMatlabType<T>` distinguishes: the
ten explicitly specialised types (header lines 20-29), and `cOther` standing
for every other instantiation `T`, all of which fall through to the primary
template (header line 19). -/
inductive CType where
  | cChar
  | cUChar
  | cShort
  | cUShort
  | cInt
  | cUInt
  | cLongLong
  | cULongLong
  | cFloat
  | cDouble
  | cOther
  deriving DecidableEq

namespace hpers_TEMatEig

/-- `hpers_TEMatEig::getMatlabType<T>` (header lines 19-29): the primary
template returns `mxUNKNOWN_CLASS`; each of the ten specialisations maps its
C primitive type to the corresponding MATLAB class id. -/
def getMatlabType : CType → MxClassID
  | CType.cChar => MxClassID.mxINT8_CLASS
  | CType.cUChar => MxClassID.mxUINT8_CLASS
  | CType.cShort => MxClassID.mxINT16_CLASS
  | CType.cUShort => MxClassID.mxUINT16_CLASS
  | CType.cInt => MxClassID.mxINT32_CLASS
  | CType.cUInt => MxClassID.mxUINT32_CLASS
  | CType.cLongLong => MxClassID.mxINT64_CLASS
  | CType.cULongLong => MxClassID.mxUINT64_CLASS
  | CType.cFloat => MxClassID.mxSINGLE_CLASS
  | CType.cDouble => MxClassID.mxDOUBLE_CLASS
  | CType.cOther => MxClassID.mxUNKNOWN_CLASS

end hpers_TEMatEig

/-- A store of flat numeric buffers at element granularity; ids
`0, ..., next - 1` are the allocated buffers.  `mxArray` data buffers and
Eigen matrix storage both live here, so whether an imported matrix aliases
the source array is observable. -/
structure Mem (α : Type) where
  next : Nat
  content : Nat → List α

variable {α : Type}

/-- Reading a buffer of the store. -/
def Mem.read (m : Mem α) (b : Nat) : List α :=
  m.content b

/-- Allocating a fresh buffer holding `data`; returns the store and the new
buffer's id. -/
def Mem.alloc (m : Mem α) (data : List α) : Mem α × Nat :=
  (⟨m.next + 1, fun b => if b = m.next then data else m.content b⟩, m.next)

/-- Overwriting the contents of buffer `b`. -/
def Mem.write (m : Mem α) (b : Nat) (data : List α) : Mem α :=
  ⟨m.next, fun b2 => if b2 = b then data else m.content b2⟩

/-- `Eigen::Matrix<T, Eigen::Dynamic, Eigen::Dynamic>` (the header's
`EigenMatrix` macro): rows, cols, and the matrix's own column-major element
buffer in the store — element `(r, c)` at flat offset `r + c * rows`. -/
structure EigenMatrix where
  rows : Nat
  cols : Nat
  buf : Nat
  deriving DecidableEq

/-- A MATLAB `mxArray`: its dimension list, class id, and flat data buffer
(column-major within each `rows * cols` slice, slices concatenated in
channel order). -/
structure MxArray where
  dims : List Nat
  classID : MxClassID
  buf : Nat
  deriving DecidableEq

/-- `mxGetM`: the number of rows, i.e. the first dimension. -/
def mxGetM (a : MxArray) : Nat :=
  a.dims.getD 0 0

/-- `mxGetN`: the number of columns.  Per the MATLAB C API documentation,
for an N-dimensional `mxArray` this is the product of dimensions 2 through
N — not simply the second dimension. -/
def mxGetN (a : MxArray) : Nat :=
  (a.dims.drop 1).prod

/-- `mxGetNumberOfDimensions`. -/
def mxGetNumberOfDimensions (a : MxArray) : Nat :=
  a.dims.length

/-- `mxGetDimensions`. -/
def mxGetDimensions (a : MxArray) : List Nat :=
  a.dims

/-- `mxCreateNumericMatrix nrows ncols classid mxREAL`: allocate a fresh
zero-initialised `nrows * ncols` buffer with dimension list
`[nrows, ncols]`. -/
def mxCreateNumericMatrix [Zero α] (m : Mem α) (nrows ncols : Nat)
    (classid : MxClassID) : Mem α × MxArray :=
  let (m1, b) := m.alloc (List.replicate (nrows * ncols) 0)
  (m1, ⟨[nrows, ncols], classid, b⟩)

/-- `mxCreateNumericArray ndims dims classid mxREAL`: allocate a fresh
zero-initialised buffer of `dims.prod` elements with the given dimension
list. -/
def mxCreateNumericArray [Zero α] (m : Mem α) (dims : List Nat)
    (classid : MxClassID) : Mem α × MxArray :=
  let (m1, b) := m.alloc (List.replicate dims.prod 0)
  (m1, ⟨dims, classid, b⟩)

/-- `std::memcpy(dst, src, sizeof(T) * n)` at element granularity: the first
`n` elements of `dst` are overwritten by the first `n` elements of `src`
(the defined-behaviour projection — the C call requires both buffers to hold
at least `n` elements). -/
def memcpyEl (dst src : List α) (n : Nat) : List α :=
  src.take n ++ dst.drop n

/-- `memcpy` into `dst` at element offset `off` (the advanced destination
pointer of the 3D export loop). -/
def memcpyAt (dst src : List α) (off n : Nat) : List α :=
  dst.take off ++ src.take n ++ dst.drop (off + n)

/-- `eigen2matlab` (2D overload, header lines 35-44): allocate an
`nrows x ncols` numeric `mxArray` tagged `getMatlabType<T>()` and `memcpy`
the matrix's column-major buffer into it. -/
def eigen2matlab [Zero α] (ct : CType) (m : Mem α) (matIn : EigenMatrix) :
    Mem α × MxArray :=
  let nrows := matIn.rows
  let ncols := matIn.cols
  let (m1, matOut) :=
    mxCreateNumericMatrix m nrows ncols (hpers_TEMatEig.getMatlabType ct)
  let dst := m1.read matOut.buf
  let src := m1.read matIn.buf
  (m1.write matOut.buf (memcpyEl dst src (nrows * ncols)), matOut)

/-- The channel loop of the 3D `eigen2matlab` (header lines 61-66): copy
channel `i`'s `n = nrows * ncols` elements to offset `off` of the
destination buffer, then advance the destination cursor by `n`. -/
def copyChannelsOut (dstBuf n : Nat) :
    Mem α → List EigenMatrix → Nat → Mem α
  | mem, [], _ => mem
  | mem, ch :: rest, off =>
    let src := mem.read ch.buf
    let dst := mem.read dstBuf
    copyChannelsOut dstBuf n (mem.write dstBuf (memcpyAt dst src off n)) rest (off + n)

/-- `eigen2matlab` (3D overload, header lines 49-69): read rows and cols
from channel 0, allocate a numeric `mxArray` with dims
`[nrows, ncols, nchannels]`, then `memcpy` each channel in order, advancing
the destination pointer by `nrows * ncols` elements per channel.
(`matIn[0]` on an empty vector is undefined behaviour in C++; the model
reads a `0 x 0` default there — the claims about this function assume a
non-empty channel list.) -/
def eigen2matlab3 [Zero α] (ct : CType) (m : Mem α)
    (matIn : List EigenMatrix) : Mem α × MxArray :=
  let nrows := (matIn.headD ⟨0, 0, 0⟩).rows
  let ncols := (matIn.headD ⟨0, 0, 0⟩).cols
  let nchannels := matIn.length
  let dims := [nrows, ncols, nchannels]
  let (m1, matOut) := mxCreateNumericArray m dims (hpers_TEMatEig.getMatlabType ct)
  (copyChannelsOut matOut.buf (nrows * ncols) m1 matIn 0, matOut)

/-- `matlab2eigen` (2D overload, header lines 74-93).  With
`copy_mem = true`: construct an owning `nrows x ncols` matrix
(`EigenMatrix(nrows, ncols)` — storage uninitialised, modelled as zeros)
and `memcpy` `nrows * ncols` elements from the `mxArray`'s buffer into it.
With `copy_mem = false` the source is
`matOut = Eigen::Map<EigenMatrix>(src_pointer, nrows, ncols);` — assigning a
`Map` expression to a plain `Eigen::Matrix` resizes the matrix's own storage
and copies the coefficients (Eigen re-seats a view only under placement
`new` on a `Map` object), so this branch also produces an owning matrix
holding the first `nrows * ncols` source elements, not a view aliasing the
`mxArray`'s buffer. -/
def matlab2eigen [Zero α] (m : Mem α) (matIn : MxArray)
    (copy_mem : Bool := false) : Mem α × EigenMatrix :=
  let nrows := mxGetM matIn
  let ncols := mxGetN matIn
  let src := m.read matIn.buf
  if copy_mem then
    let (m1, b) := m.alloc (List.replicate (nrows * ncols) 0)
    let m2 := m1.write b (memcpyEl (m1.read b) src (nrows * ncols))
    (m2, ⟨nrows, ncols, b⟩)
  else
    let (m1, b) := m.alloc (src.take (nrows * ncols))
    (m1, ⟨nrows, ncols, b⟩)

/-- One channel of the `copy_mem` branch of the 3D `matlab2eigen` (header
lines 115-117): `matOut[i] = EigenMatrix(nrows, ncols)` allocates the
matrix's own storage (uninitialised, modelled as zeros), then `memcpy`
fills its `n` elements from `data`.  Returns the store and the fresh
buffer's id. -/
def allocCopiedChannel [Zero α] (mem : Mem α) (data : List α) (n : Nat) :
    Mem α × Nat :=
  let (m1, b) := mem.alloc (List.replicate n 0)
  (m1.write b (memcpyEl (m1.read b) data n), b)

/-- The `copy_mem` branch of the 3D `matlab2eigen` (header lines 111-121):
for each of the remaining `k` channels, construct an owning
`nrows x ncols` matrix, `memcpy` `nrows * ncols` elements from the source
pointer at element offset `off`, and advance the source pointer. -/
def copyChannelsIn [Zero α] (nrows ncols : Nat) (src : List α) :
    Mem α → Nat → Nat → Mem α × List EigenMatrix
  | mem, _, 0 => (mem, [])
  | mem, off, Nat.succ k =>
    let n := nrows * ncols
    let (m2, b) := allocCopiedChannel mem (src.drop off) n
    let (m3, rest) := copyChannelsIn nrows ncols src m2 (off + n) k
    (m3, ⟨nrows, ncols, b⟩ :: rest)

/-- The view branch of the 3D `matlab2eigen` (header lines 122-129):
`matOut[i] = Eigen::Map<EigenMatrix>(src_pointer, nrows, ncols);` — as in
the 2D import, the `Map` assignment copies the coefficients into the
vector element's own storage, so each channel again owns a fresh buffer. -/
def mapChannelsIn (nrows ncols : Nat) (src : List α) :
    Mem α → Nat → Nat → Mem α × List EigenMatrix
  | mem, _, 0 => (mem, [])
  | mem, off, Nat.succ k =>
    let n := nrows * ncols
    let (m1, b) := mem.alloc ((src.drop off).take n)
    let (m2, rest) := mapChannelsIn nrows ncols src m1 (off + n) k
    (m2, ⟨nrows, ncols, b⟩ :: rest)

/-- `matlab2eigen` (3D overload, header lines 98-131): `nchannels` is
`dims[2]` unless the array has exactly 2 dimensions (then 1); the output
vector gets `nchannels` entries; channel `i` is filled from element offset
`i * nrows * ncols` of the `mxArray`'s flat buffer, by `memcpy`
(`copy_mem`) or by `Map` assignment (which also copies). -/
def matlab2eigen3 [Zero α] (m : Mem α) (matIn : MxArray)
    (copy_mem : Bool := true) : Mem α × List EigenMatrix :=
  let ndims := mxGetNumberOfDimensions matIn
  let dims := mxGetDimensions matIn
  let nrows := dims.getD 0 0
  let ncols := dims.getD 1 0
  let nchannels := if ndims = 2 then 1 else dims.getD 2 0
  let src := m.read matIn.buf
  if copy_mem then
    copyChannelsIn nrows ncols src m 0 nchannels
  else
    mapChannelsIn nrows ncols src m 0 nchannels

/-- Writing value `v` through an Eigen matrix at position `(r, c)`: Eigen
stores column-major, so the write lands at flat offset `r + c * rows` of the
matrix's own buffer.  Used to observe whether an imported matrix aliases the
source `mxArray`'s buffer. -/
def writeThrough (m : Mem α) (M : EigenMatrix) (r c : Nat) (v : α) : Mem α :=
  m.write M.buf ((m.read M.buf).set (r + c * M.rows) v)

/-- The round trip of the spec's first testable property: export a matrix,
then import the result in Copy mode. -/
def roundTripMatrix [Zero α] (ct : CType) (mem : Mem α) (M : EigenMatrix) :
    Mem α × EigenMatrix :=
  matlab2eigen (eigen2matlab ct mem M).1 (eigen2matlab ct mem M).2 true

/-- The round trip of the spec's tensor property: export a channel list,
then import the result in Copy mode. -/
def roundTripTensor [Zero α] (ct : CType) (mem : Mem α)
    (C : List EigenMatrix) : Mem α × List EigenMatrix :=
  matlab2eigen3 (eigen2matlab3 ct mem C).1 (eigen2matlab3 ct mem C).2 true

/-! ### Concrete stores and arrays used to evaluate the theorems -/

/-- A one-buffer store over `Int`: buffer 0 holds `[1, 3, 2, 4]` — the
spec's example 2 x 2 matrix `[[1,2],[3,4]]` in column-major order. -/
def memEx : Mem Int :=
  ⟨1, fun b => if b = 0 then [1, 3, 2, 4] else []⟩

/-- The 2 x 2 matrix whose elements live in buffer 0. -/
def matEx : EigenMatrix :=
  ⟨2, 2, 0⟩

/-- A 2 x 2 `mxArray` over buffer 0 (as `eigen2matlab` would tag a
`uint32` export). -/
def arrEx : MxArray :=
  ⟨[2, 2], MxClassID.mxUINT32_CLASS, 0⟩

/-- A one-buffer store over `Int` whose buffers are all empty: only the
shape behaviour of the imports is observed through it. -/
def memEmpty : Mem Int :=
  ⟨1, fun _ => []⟩

/-- A 3-dimensional 2 x 3 x 4 `mxArray` over buffer 0. -/
def arr234 : MxArray :=
  ⟨[2, 3, 4], MxClassID.mxDOUBLE_CLASS, 0⟩

/-- A 4-dimensional 1 x 1 x 2 x 3 `mxArray` over buffer 0. -/
def arr4d : MxArray :=
  ⟨[1, 1, 2, 3], MxClassID.mxDOUBLE_CLASS, 0⟩

/-- A two-buffer store over `Int`: buffer 0 holds channel A
`[[1,2],[3,4]]` and buffer 1 channel B `[[5,6],[7,8]]`, both
column-major. -/
def memEx2 : Mem Int :=
  ⟨2, fun b => if b = 0 then [1, 3, 2, 4] else if b = 1 then [5, 7, 6, 8] else []⟩

/-- The two 2 x 2 channels of `memEx2` as a channel list. -/
def chansEx : List EigenMatrix :=
  [⟨2, 2, 0⟩, ⟨2, 2, 1⟩]

/-! ### Store lemmas -/

theorem Mem.read_write (m : Mem α) (b b2 : Nat) (d : List α) :
    (m.write b d).read b2 = if b2 = b then d else m.read b2 := rfl

theorem Mem.read_alloc (m : Mem α) (d : List α) (b2 : Nat) :
    ((m.alloc d).1).read b2 = if b2 = m.next then d else m.read b2 := rfl

theorem Mem.alloc_snd (m : Mem α) (d : List α) : (m.alloc d).2 = m.next := rfl

theorem Mem.next_write (m : Mem α) (b : Nat) (d : List α) :
    (m.write b d).next = m.next := rfl

theorem Mem.next_alloc (m : Mem α) (d : List α) :
    ((m.alloc d).1).next = m.next + 1 := rfl

theorem Mem.read_alloc_self (m : Mem α) (d : List α) :
    ((m.alloc d).1).read m.next = d := by
  rw [Mem.read_alloc]
  simp

theorem Mem.read_alloc_ne (m : Mem α) (d : List α) (b : Nat)
    (hb : b ≠ m.next) : ((m.alloc d).1).read b = m.read b := by
  rw [Mem.read_alloc]
  simp [hb]

/-! ### Claim theorems: the type-tag resolver and defaults -/

/-- C3: the type-tag resolver is total and injective on the supported scalar
kinds — every supported C type (all of `CType` but `cOther`) gets a proper
tag, never the unknown sentinel, and distinct supported types get distinct
tags. -/
theorem getMatlabType_total_injective :
    (∀ t : CType, t ≠ CType.cOther →
      hpers_TEMatEig.getMatlabType t ≠ MxClassID.mxUNKNOWN_CLASS) ∧
    (∀ t1 t2 : CType, t1 ≠ CType.cOther → t2 ≠ CType.cOther →
      hpers_TEMatEig.getMatlabType t1 = hpers_TEMatEig.getMatlabType t2 →
      t1 = t2) := by
  constructor
  · intro t ht
    cases t <;> simp_all [hpers_TEMatEig.getMatlabType]
  · intro t1 t2 h1 h2 heq
    cases t1 <;> cases t2 <;> first
      | rfl
      | simp_all [hpers_TEMatEig.getMatlabType]

/-- C3 witness: the resolver at the concrete supported types `int` and
`float`. -/
theorem getMatlabType_total_injective_witness :
    hpers_TEMatEig.getMatlabType CType.cInt ≠ MxClassID.mxUNKNOWN_CLASS ∧
    CType.cFloat = CType.cFloat :=
  ⟨getMatlabType_total_injective.1 CType.cInt (by decide),
   getMatlabType_total_injective.2 CType.cFloat CType.cFloat
     (by decide) (by decide) rfl⟩

/-- C4: for a scalar type outside the supported set the resolver yields the
unknown sentinel, and export succeeds anyway: `eigen2matlab` on such a type
is total and produces an `mxArray` with the matrix's shape whose class id is
`mxUNKNOWN_CLASS` rather than raising an error. -/
theorem export_unsupported_unknown_tag (α : Type) [Zero α] (mem : Mem α)
    (M : EigenMatrix) :
    hpers_TEMatEig.getMatlabType CType.cOther = MxClassID.mxUNKNOWN_CLASS ∧
    ((eigen2matlab CType.cOther mem M).2).classID = MxClassID.mxUNKNOWN_CLASS ∧
    ((eigen2matlab CType.cOther mem M).2).dims = [M.rows, M.cols] :=
  ⟨rfl, rfl, rfl⟩

/-- C8: the 2D import's `copy_mem` flag defaults to `false` (the header's
view-intent mode) and the 3D import's defaults to `true` (Copy): calling
either importer without the mode argument is the call with that mode. -/
theorem import_default_modes (α : Type) [Zero α] (mem : Mem α) (A : MxArray) :
    matlab2eigen mem A = matlab2eigen mem A false ∧
    matlab2eigen3 mem A = matlab2eigen3 mem A true :=
  ⟨rfl, rfl⟩

/-! ### The 2D export and import, characterised -/

/-- The 2D export: the `mxArray` is fresh (id `mem.next`), carries dims
`[rows, cols]` and the resolver's tag, holds the first `rows * cols`
elements of the matrix's buffer, and no existing buffer changes. -/
theorem eigen2matlab_spec [Zero α] (ct : CType) (mem : Mem α)
    (M : EigenMatrix) (hbuf : M.buf < mem.next) :
    (eigen2matlab ct mem M).2
        = ⟨[M.rows, M.cols], hpers_TEMatEig.getMatlabType ct, mem.next⟩ ∧
    ((eigen2matlab ct mem M).1).next = mem.next + 1 ∧
    ((eigen2matlab ct mem M).1).read mem.next
        = (mem.read M.buf).take (M.rows * M.cols) ∧
    (∀ b, b ≠ mem.next → ((eigen2matlab ct mem M).1).read b = mem.read b) := by
  have hne : M.buf ≠ mem.next := Nat.ne_of_lt hbuf
  refine ⟨rfl, rfl, ?_, ?_⟩
  · simp [eigen2matlab, mxCreateNumericMatrix, Mem.alloc, Mem.write, Mem.read,
      memcpyEl, hne, List.drop_replicate]
  · intro b hb
    simp [eigen2matlab, mxCreateNumericMatrix, Mem.alloc, Mem.write, Mem.read, hb]

/-- The 2D Copy-mode import: the matrix is fresh (id `mem.next`), shaped
`mxGetM x mxGetN`, holds the first `mxGetM * mxGetN` source elements, and no
existing buffer changes. -/
theorem matlab2eigen_copy_spec [Zero α] (mem : Mem α) (A : MxArray) :
    (matlab2eigen mem A true).2 = ⟨mxGetM A, mxGetN A, mem.next⟩ ∧
    ((matlab2eigen mem A true).1).next = mem.next + 1 ∧
    ((matlab2eigen mem A true).1).read mem.next
        = (mem.read A.buf).take (mxGetM A * mxGetN A) ∧
    (∀ b, b ≠ mem.next → ((matlab2eigen mem A true).1).read b = mem.read b) := by
  refine ⟨rfl, rfl, ?_, ?_⟩
  · simp [matlab2eigen, Mem.alloc, Mem.write, Mem.read, memcpyEl,
      List.drop_replicate]
  · intro b hb
    simp [matlab2eigen, Mem.alloc, Mem.write, Mem.read, hb]

/-- The 2D import with `copy_mem = false` has exactly the same effect as
with `copy_mem = true`: the `Map` assignment also fills a fresh owning
buffer (id `mem.next`) with the first `mxGetM * mxGetN` source elements. -/
theorem matlab2eigen_view_spec [Zero α] (mem : Mem α) (A : MxArray) :
    (matlab2eigen mem A false).2 = ⟨mxGetM A, mxGetN A, mem.next⟩ ∧
    ((matlab2eigen mem A false).1).next = mem.next + 1 ∧
    ((matlab2eigen mem A false).1).read mem.next
        = (mem.read A.buf).take (mxGetM A * mxGetN A) ∧
    (∀ b, b ≠ mem.next → ((matlab2eigen mem A false).1).read b = mem.read b) := by
  refine ⟨rfl, rfl, ?_, ?_⟩
  · simp [matlab2eigen, Mem.alloc, Mem.read]
  · intro b hb
    simp [matlab2eigen, Mem.alloc, Mem.read, hb]

/-! ### Claim C1: the 2D round trip -/

/-- C1: importing the export of `M` in Copy mode returns a matrix with `M`'s
rows and cols whose buffer holds exactly `M`'s elements, for every scalar
type and every matrix whose buffer is allocated with `rows * cols`
elements. -/
theorem roundtrip_matrix_copy (α : Type) [Zero α] (ct : CType) (mem : Mem α)
    (M : EigenMatrix) (hbuf : M.buf < mem.next)
    (hlen : (mem.read M.buf).length = M.rows * M.cols) :
    ((roundTripMatrix ct mem M).2).rows = M.rows ∧
    ((roundTripMatrix ct mem M).2).cols = M.cols ∧
    ((roundTripMatrix ct mem M).1).read ((roundTripMatrix ct mem M).2).buf
        = mem.read M.buf := by
  obtain ⟨hA, hnext1, hread1, -⟩ := eigen2matlab_spec ct mem M hbuf
  obtain ⟨hM, hnext2, hread2, -⟩ :=
    matlab2eigen_copy_spec (eigen2matlab ct mem M).1 (eigen2matlab ct mem M).2
  have hgM : mxGetM (eigen2matlab ct mem M).2 = M.rows := by
    rw [hA]; rfl
  have hgN : mxGetN (eigen2matlab ct mem M).2 = M.cols := by
    rw [hA]; simp [mxGetN]
  have hAbuf : ((eigen2matlab ct mem M).2).buf = mem.next := by rw [hA]
  have htake : (mem.read M.buf).take (M.rows * M.cols) = mem.read M.buf :=
    List.take_of_length_le (le_of_eq hlen)
  simp only [roundTripMatrix]
  rw [hM]
  refine ⟨hgM, hgN, ?_⟩
  show ((matlab2eigen _ _ true).1).read _ = _
  rw [hread2, hAbuf, hread1, hgM, hgN, htake, htake]

/-- C1 witness: the spec's example 2 x 2 matrix `[[1,2],[3,4]]`, stored
column-major as `[1, 3, 2, 4]` in buffer 0 of a one-buffer store, survives
the export / Copy-import round trip unchanged. -/
theorem roundtrip_matrix_copy_witness :
    ((roundTripMatrix CType.cUInt memEx matEx).2).rows = 2 ∧
    ((roundTripMatrix CType.cUInt memEx matEx).2).cols = 2 ∧
    ((roundTripMatrix CType.cUInt memEx matEx).1).read
        ((roundTripMatrix CType.cUInt memEx matEx).2).buf = [1, 3, 2, 4] :=
  roundtrip_matrix_copy Int CType.cUInt memEx matEx (by decide) (by decide)

/-! ### Claim C5: what shape the 2D import reads from a 3D array -/

/-- C5 counterexample: importing the 3-dimensional 2 x 3 x 4 array through
the 2D import yields 12 columns in both modes — `mxGetN` multiplies the
trailing dimensions — not the 3 columns the claim requires. -/
theorem importMatrix_third_dim_counterexample :
    ((matlab2eigen memEmpty arr234 true).2).rows = 2 ∧
    ((matlab2eigen memEmpty arr234 true).2).cols = 12 ∧
    ((matlab2eigen memEmpty arr234 false).2).cols = 12 ∧
    (12 : Nat) ≠ 3 := by
  decide

/-- C5 (amended): the 2D import reads rows from the first entry of the
shape descriptor, but cols as the product of all remaining entries
(`mxGetN`), so a 3-dimensional `(r, c, k)` array yields `r` rows and
`c * k` columns — the third dimension is folded into the columns, not
ignored — in either mode. -/
theorem importMatrix_shape_amended (α : Type) [Zero α] (mem : Mem α)
    (A : MxArray) (r c k : Nat) (mode : Bool) (hdims : A.dims = [r, c, k]) :
    ((matlab2eigen mem A mode).2).rows = r ∧
    ((matlab2eigen mem A mode).2).cols = c * k := by
  cases mode <;>
    simp [matlab2eigen, Mem.alloc, mxGetM, mxGetN, hdims, Nat.mul_assoc]

/-- C5 witness: the amended shape rule at the concrete 2 x 3 x 4 array. -/
theorem importMatrix_shape_amended_witness :
    ((matlab2eigen memEmpty arr234 false).2).rows = 2 ∧
    ((matlab2eigen memEmpty arr234 false).2).cols = 12 :=
  importMatrix_shape_amended Int memEmpty arr234 2 3 4 false rfl

/-! ### Claim C7: no aliasing ever reaches the mxArray -/

/-- C7 at the failing input: import the 2 x 2 array over buffer
`[1, 3, 2, 4]` in the claim's View mode (`copy_mem = false`) and write 99
through the resulting matrix at position (0, 0).  The write is NOT
observable on the array: its buffer still reads `[1, 3, 2, 4]`, while the
99 landed in the matrix's own fresh buffer (id 1, distinct from the
array's id 0) — `matOut = Eigen::Map<EigenMatrix>(src_pointer, nrows,
ncols)` copies the coefficients into `matOut`'s own storage instead of
re-seating `matOut` over the `mxArray`'s memory. -/
theorem importMatrix_view_write_not_observable :
    ((matlab2eigen memEx arrEx false).2).buf ≠ arrEx.buf ∧
    (writeThrough (matlab2eigen memEx arrEx false).1
        ((matlab2eigen memEx arrEx false).2) 0 0 99).read arrEx.buf
      = [1, 3, 2, 4] ∧
    (writeThrough (matlab2eigen memEx arrEx false).1
        ((matlab2eigen memEx arrEx false).2) 0 0 99).read
        ((matlab2eigen memEx arrEx false).2).buf
      = [99, 3, 2, 4] := by
  decide

/-! ### The 3D export loop, characterised -/

/-- The export channel loop allocates nothing. -/
theorem copyChannelsOut_next (dstBuf n : Nat) (chans : List EigenMatrix) :
    ∀ (mem : Mem α) (off : Nat),
      (copyChannelsOut dstBuf n mem chans off).next = mem.next := by
  induction chans with
  | nil => intro mem off; rfl
  | cons ch rest ih =>
    intro mem off
    simp only [copyChannelsOut]
    rw [ih]
    rfl

/-- The export channel loop writes only the destination buffer. -/
theorem copyChannelsOut_read_other (dstBuf n : Nat) (chans : List EigenMatrix) :
    ∀ (mem : Mem α) (off b : Nat), b ≠ dstBuf →
      (copyChannelsOut dstBuf n mem chans off).read b = mem.read b := by
  induction chans with
  | nil => intro mem off b hb; rfl
  | cons ch rest ih =>
    intro mem off b hb
    simp only [copyChannelsOut]
    rw [ih _ _ _ hb]
    simp [Mem.read_write, hb]

/-- After the export channel loop, the destination buffer holds its first
`off` elements followed by the channels' buffers in order, provided every
channel holds exactly `n` elements, none aliases the destination, and the
destination holds exactly the `off + n * chans.length` elements the copies
will fill. -/
theorem copyChannelsOut_read_dst (dstBuf n : Nat) (chans : List EigenMatrix) :
    ∀ (mem : Mem α) (off : Nat),
      (∀ ch ∈ chans, ch.buf ≠ dstBuf) →
      (∀ ch ∈ chans, (mem.read ch.buf).length = n) →
      (mem.read dstBuf).length = off + n * chans.length →
      (copyChannelsOut dstBuf n mem chans off).read dstBuf
        = (mem.read dstBuf).take off
            ++ (chans.map fun ch => mem.read ch.buf).flatten := by
  induction chans with
  | nil =>
    intro mem off hnd hlen hdst
    simp only [List.length_nil, Nat.mul_zero, Nat.add_zero] at hdst
    simp only [copyChannelsOut, List.map_nil, List.flatten_nil, List.append_nil]
    rw [← hdst, List.take_length]
  | cons ch rest ih =>
    intro mem off hnd hlen hdst
    have hchne : ch.buf ≠ dstBuf := hnd ch (List.mem_cons_self ch rest)
    have hsrclen : (mem.read ch.buf).length = n :=
      hlen ch (List.mem_cons_self ch rest)
    have hdstlen : (mem.read dstBuf).length = off + n + n * rest.length := by
      simp only [List.length_cons] at hdst
      rw [hdst]; ring
    simp only [copyChannelsOut]
    have hread2 :
        ((mem.write dstBuf
            (memcpyAt (mem.read dstBuf) (mem.read ch.buf) off n)).read dstBuf)
          = memcpyAt (mem.read dstBuf) (mem.read ch.buf) off n := by
      simp [Mem.read_write]
    have hlen2 : ∀ ch2 ∈ rest,
        (((mem.write dstBuf
            (memcpyAt (mem.read dstBuf) (mem.read ch.buf) off n))).read ch2.buf).length
          = n := by
      intro ch2 hch2
      have : ch2.buf ≠ dstBuf := hnd ch2 (List.mem_cons_of_mem ch hch2)
      rw [Mem.read_write]
      simp [this]
      exact hlen ch2 (List.mem_cons_of_mem ch hch2)
    have hdst2 :
        (((mem.write dstBuf
            (memcpyAt (mem.read dstBuf) (mem.read ch.buf) off n))).read dstBuf).length
          = (off + n) + n * rest.length := by
      rw [hread2]
      simp only [memcpyAt, List.length_append, List.length_take, List.length_drop,
        hsrclen]
      omega
    rw [ih _ _ (fun ch2 hch2 => hnd ch2 (List.mem_cons_of_mem ch hch2)) hlen2 hdst2]
    rw [hread2]
    have hmap : (rest.map fun ch2 =>
        (mem.write dstBuf
          (memcpyAt (mem.read dstBuf) (mem.read ch.buf) off n)).read ch2.buf)
        = rest.map fun ch2 => mem.read ch2.buf := by
      refine List.map_congr_left ?_
      intro ch2 hch2
      have : ch2.buf ≠ dstBuf := hnd ch2 (List.mem_cons_of_mem ch hch2)
      rw [Mem.read_write]
      simp [this]
    rw [hmap]
    have hfront : (memcpyAt (mem.read dstBuf) (mem.read ch.buf) off n).take (off + n)
        = (mem.read dstBuf).take off ++ mem.read ch.buf := by
      simp only [memcpyAt]
      rw [List.take_left']
      · rw [List.take_of_length_le (le_of_eq hsrclen)]
      · rw [List.length_append, List.length_take, List.length_take, hsrclen]
        omega
    rw [hfront, List.map_cons, List.flatten_cons, List.append_assoc]

/-- Extracting slice `k` of a concatenation of uniform-length lists. -/
theorem flatten_uniform_extract (n : Nat) :
    ∀ (L : List (List α)), (∀ s ∈ L, s.length = n) →
      ∀ k, ∀ hk : k < L.length,
        ((L.flatten).drop (k * n)).take n = L.get ⟨k, hk⟩ := by
  intro L
  induction L with
  | nil =>
    intro _ k hk
    exact absurd hk (by simp)
  | cons s rest ih =>
    intro hlen k hk
    have hs : s.length = n := hlen s (List.mem_cons_self s rest)
    cases k with
    | zero =>
      simp only [List.flatten_cons, Nat.zero_mul, List.drop_zero]
      rw [List.take_left' hs]
      rfl
    | succ j =>
      have hidx : (j + 1) * n = n + j * n := by ring
      simp only [List.flatten_cons]
      rw [hidx, ← List.drop_drop, List.drop_left' hs]
      have hj : j < rest.length := by
        simpa [Nat.succ_lt_succ_iff] using hk
      rw [ih (fun s2 hs2 => hlen s2 (List.mem_cons_of_mem s hs2)) j hj]
      rfl

/-- The 3D export: the `mxArray` is fresh (id `mem.next`), carries dims
`[r, c, nchannels]` read off channel 0, its buffer is exactly the channels'
buffers concatenated in order, and no existing buffer changes. -/
theorem eigen2matlab3_spec [Zero α] (ct : CType) (mem : Mem α)
    (C : List EigenMatrix) (r c : Nat) (hne : C ≠ [])
    (hshape : ∀ ch ∈ C, ch.rows = r ∧ ch.cols = c)
    (hlen : ∀ ch ∈ C, (mem.read ch.buf).length = r * c)
    (hbuf : ∀ ch ∈ C, ch.buf < mem.next) :
    (eigen2matlab3 ct mem C).2
        = ⟨[r, c, C.length], hpers_TEMatEig.getMatlabType ct, mem.next⟩ ∧
    ((eigen2matlab3 ct mem C).1).next = mem.next + 1 ∧
    ((eigen2matlab3 ct mem C).1).read mem.next
        = (C.map fun ch => mem.read ch.buf).flatten ∧
    (∀ b, b ≠ mem.next → ((eigen2matlab3 ct mem C).1).read b = mem.read b) := by
  obtain ⟨ch0, rest, rfl⟩ := List.exists_cons_of_ne_nil hne
  obtain ⟨hr0, hc0⟩ := hshape ch0 (List.mem_cons_self ch0 rest)
  have hm1read : ∀ ch : EigenMatrix, ch.buf < mem.next →
      ((mem.alloc (List.replicate
          ([ch0.rows, ch0.cols, (ch0 :: rest).length].prod) 0)).1).read ch.buf
        = mem.read ch.buf := by
    intro ch hch
    rw [Mem.read_alloc]
    simp [Nat.ne_of_lt hch]
  refine ⟨?_, ?_, ?_, ?_⟩
  · show (⟨[ch0.rows, ch0.cols, (ch0 :: rest).length],
        hpers_TEMatEig.getMatlabType ct, mem.next⟩ : MxArray) = _
    rw [hr0, hc0]
  · show (copyChannelsOut mem.next (ch0.rows * ch0.cols)
        ((mem.alloc (List.replicate
          ([ch0.rows, ch0.cols, (ch0 :: rest).length].prod) 0)).1)
        (ch0 :: rest) 0).next = mem.next + 1
    rw [copyChannelsOut_next]
    rfl
  · show (copyChannelsOut mem.next (ch0.rows * ch0.cols)
        ((mem.alloc (List.replicate
          ([ch0.rows, ch0.cols, (ch0 :: rest).length].prod) 0)).1)
        (ch0 :: rest) 0).read mem.next = _
    have h1 : ∀ ch ∈ (ch0 :: rest), ch.buf ≠ mem.next :=
      fun ch hch => Nat.ne_of_lt (hbuf ch hch)
    have h2 : ∀ ch ∈ (ch0 :: rest),
        (((mem.alloc (List.replicate
            ([ch0.rows, ch0.cols, (ch0 :: rest).length].prod) 0)).1).read
            ch.buf).length
          = ch0.rows * ch0.cols := by
      intro ch hch
      rw [hm1read ch (hbuf ch hch), hlen ch hch, hr0, hc0]
    have h3 : (((mem.alloc (List.replicate
          ([ch0.rows, ch0.cols, (ch0 :: rest).length].prod) 0)).1).read
          mem.next).length
        = 0 + ch0.rows * ch0.cols * (ch0 :: rest).length := by
      rw [Mem.read_alloc_self]
      simp only [List.length_replicate, List.prod_cons, List.prod_nil]
      ring
    rw [copyChannelsOut_read_dst _ _ _ _ _ h1 h2 h3, List.take_zero,
      List.nil_append]
    exact congrArg List.flatten
      (List.map_congr_left fun ch hch => hm1read ch (hbuf ch hch))
  · intro b hb
    show (copyChannelsOut mem.next (ch0.rows * ch0.cols)
        ((mem.alloc (List.replicate
          ([ch0.rows, ch0.cols, (ch0 :: rest).length].prod) 0)).1)
        (ch0 :: rest) 0).read b = mem.read b
    rw [copyChannelsOut_read_other _ _ _ _ _ _ hb, Mem.read_alloc]
    simp [hb]

/-! ### The 3D import loops, characterised -/

/-- One copied channel: fresh buffer `mem.next` holding the first `n`
elements of `data`; nothing else changes. -/
theorem allocCopiedChannel_spec [Zero α] (mem : Mem α) (d : List α) (n : Nat) :
    (allocCopiedChannel mem d n).2 = mem.next ∧
    ((allocCopiedChannel mem d n).1).next = mem.next + 1 ∧
    ((allocCopiedChannel mem d n).1).read mem.next = d.take n ∧
    (∀ b, b ≠ mem.next →
      ((allocCopiedChannel mem d n).1).read b = mem.read b) := by
  have hfst : (allocCopiedChannel mem d n).1
      = ((mem.alloc (List.replicate n 0)).1).write mem.next
          (memcpyEl (((mem.alloc (List.replicate n 0)).1).read mem.next) d n) :=
    rfl
  refine ⟨rfl, rfl, ?_, ?_⟩
  · rw [hfst, Mem.read_write]
    simp [Mem.read_alloc_self, memcpyEl, List.drop_replicate]
  · intro b hb
    rw [hfst, Mem.read_write]
    simp only [if_neg hb]
    exact Mem.read_alloc_ne mem _ b hb

/-- The copying import loop: `k` fresh matrices at ids
`mem.next, ..., mem.next + k - 1`, matrix `i` holding the `nrows * ncols`
source elements at offset `off + i * nrows * ncols`; older buffers are
untouched. -/
theorem copyChannelsIn_spec [Zero α] (nrows ncols : Nat) (src : List α) :
    ∀ (k : Nat) (mem : Mem α) (off : Nat),
      (copyChannelsIn nrows ncols src mem off k).2
          = (List.range k).map
              (fun i => (⟨nrows, ncols, mem.next + i⟩ : EigenMatrix)) ∧
      ((copyChannelsIn nrows ncols src mem off k).1).next = mem.next + k ∧
      (∀ b, b < mem.next →
        ((copyChannelsIn nrows ncols src mem off k).1).read b = mem.read b) ∧
      (∀ i, i < k →
        ((copyChannelsIn nrows ncols src mem off k).1).read (mem.next + i)
          = (src.drop (off + i * (nrows * ncols))).take (nrows * ncols)) := by
  intro k
  induction k with
  | zero =>
    intro mem off
    exact ⟨rfl, rfl, fun b _ => rfl, fun i hi => absurd hi (Nat.not_lt_zero i)⟩
  | succ k ih =>
    intro mem off
    obtain ⟨hab, han, har, haf⟩ :=
      allocCopiedChannel_spec mem (src.drop off) (nrows * ncols)
    obtain ⟨ihl, ihn, ihf, ihr⟩ :=
      ih ((allocCopiedChannel mem (src.drop off) (nrows * ncols)).1)
        (off + nrows * ncols)
    have hm2next : ((allocCopiedChannel mem (src.drop off)
        (nrows * ncols)).1).next = mem.next + 1 := han
    refine ⟨?_, ?_, ?_, ?_⟩
    · show (⟨nrows, ncols, mem.next⟩ : EigenMatrix)
          :: (copyChannelsIn nrows ncols src
              ((allocCopiedChannel mem (src.drop off) (nrows * ncols)).1)
              (off + nrows * ncols) k).2
        = _
      rw [ihl, hm2next, List.range_succ_eq_map, List.map_cons, List.map_map]
      refine congrArg₂ List.cons ?_ ?_
      · simp
      · refine List.map_congr_left ?_
        intro i _
        simp only [Function.comp_apply]
        congr 1
        omega
    · show (copyChannelsIn nrows ncols src
          ((allocCopiedChannel mem (src.drop off) (nrows * ncols)).1)
          (off + nrows * ncols) k).1.next = _
      rw [ihn, hm2next]
      omega
    · intro b hb
      show (copyChannelsIn nrows ncols src
          ((allocCopiedChannel mem (src.drop off) (nrows * ncols)).1)
          (off + nrows * ncols) k).1.read b = _
      rw [ihf b (by rw [hm2next]; omega)]
      exact haf b (Nat.ne_of_lt hb)
    · intro i hi
      show (copyChannelsIn nrows ncols src
          ((allocCopiedChannel mem (src.drop off) (nrows * ncols)).1)
          (off + nrows * ncols) k).1.read (mem.next + i) = _
      cases i with
      | zero =>
        rw [Nat.add_zero]
        rw [ihf mem.next (by rw [hm2next]; omega), har]
        rw [Nat.zero_mul, Nat.add_zero]
      | succ j =>
        have hidx : mem.next + (j + 1)
            = ((allocCopiedChannel mem (src.drop off) (nrows * ncols)).1).next
                + j := by
          rw [hm2next]; omega
        rw [hidx, ihr j (Nat.lt_of_succ_lt_succ hi)]
        have : off + nrows * ncols + j * (nrows * ncols)
            = off + (j + 1) * (nrows * ncols) := by ring
        rw [this]

/-- The view-branch import loop has exactly the same effect: each `Map`
assignment fills a fresh owning buffer with the same `nrows * ncols` source
elements at the same offsets. -/
theorem mapChannelsIn_spec (nrows ncols : Nat) (src : List α) :
    ∀ (k : Nat) (mem : Mem α) (off : Nat),
      (mapChannelsIn nrows ncols src mem off k).2
          = (List.range k).map
              (fun i => (⟨nrows, ncols, mem.next + i⟩ : EigenMatrix)) ∧
      ((mapChannelsIn nrows ncols src mem off k).1).next = mem.next + k ∧
      (∀ b, b < mem.next →
        ((mapChannelsIn nrows ncols src mem off k).1).read b = mem.read b) ∧
      (∀ i, i < k →
        ((mapChannelsIn nrows ncols src mem off k).1).read (mem.next + i)
          = (src.drop (off + i * (nrows * ncols))).take (nrows * ncols)) := by
  intro k
  induction k with
  | zero =>
    intro mem off
    exact ⟨rfl, rfl, fun b _ => rfl, fun i hi => absurd hi (Nat.not_lt_zero i)⟩
  | succ k ih =>
    intro mem off
    obtain ⟨ihl, ihn, ihf, ihr⟩ :=
      ih ((mem.alloc ((src.drop off).take (nrows * ncols))).1)
        (off + nrows * ncols)
    have hm1next : ((mem.alloc ((src.drop off).take (nrows * ncols))).1).next
        = mem.next + 1 := rfl
    refine ⟨?_, ?_, ?_, ?_⟩
    · show (⟨nrows, ncols, mem.next⟩ : EigenMatrix)
          :: (mapChannelsIn nrows ncols src
              ((mem.alloc ((src.drop off).take (nrows * ncols))).1)
              (off + nrows * ncols) k).2
        = _
      rw [ihl, hm1next, List.range_succ_eq_map, List.map_cons, List.map_map]
      refine congrArg₂ List.cons ?_ ?_
      · simp
      · refine List.map_congr_left ?_
        intro i _
        simp only [Function.comp_apply]
        congr 1
        omega
    · show (mapChannelsIn nrows ncols src
          ((mem.alloc ((src.drop off).take (nrows * ncols))).1)
          (off + nrows * ncols) k).1.next = _
      rw [ihn, hm1next]
      omega
    · intro b hb
      show (mapChannelsIn nrows ncols src
          ((mem.alloc ((src.drop off).take (nrows * ncols))).1)
          (off + nrows * ncols) k).1.read b = _
      rw [ihf b (by rw [hm1next]; omega)]
      exact Mem.read_alloc_ne mem _ b (Nat.ne_of_lt hb)
    · intro i hi
      show (mapChannelsIn nrows ncols src
          ((mem.alloc ((src.drop off).take (nrows * ncols))).1)
          (off + nrows * ncols) k).1.read (mem.next + i) = _
      cases i with
      | zero =>
        rw [Nat.add_zero]
        rw [ihf mem.next (by rw [hm1next]; omega), Mem.read_alloc_self]
        rw [Nat.zero_mul, Nat.add_zero]
      | succ j =>
        have hidx : mem.next + (j + 1)
            = ((mem.alloc ((src.drop off).take (nrows * ncols))).1).next + j := by
          rw [hm1next]; omega
        rw [hidx, ihr j (Nat.lt_of_succ_lt_succ hi)]
        have : off + nrows * ncols + j * (nrows * ncols)
            = off + (j + 1) * (nrows * ncols) := by ring
        rw [this]

/-- The 3D import, both modes: the result is one fresh matrix per channel —
channel count `dims[2]` unless the array has exactly 2 dimensions —
shaped `dims[0] x dims[1]`, channel `i` holding the `dims[0] * dims[1]`
source elements at flat offset `i * dims[0] * dims[1]`; existing buffers
are untouched. -/
theorem matlab2eigen3_spec [Zero α] (mem : Mem α) (A : MxArray)
    (mode : Bool) :
    (matlab2eigen3 mem A mode).2
        = (List.range (if A.dims.length = 2 then 1 else A.dims.getD 2 0)).map
            (fun i =>
              (⟨A.dims.getD 0 0, A.dims.getD 1 0, mem.next + i⟩ : EigenMatrix)) ∧
    ((matlab2eigen3 mem A mode).1).next
        = mem.next + (if A.dims.length = 2 then 1 else A.dims.getD 2 0) ∧
    (∀ b, b < mem.next → ((matlab2eigen3 mem A mode).1).read b = mem.read b) ∧
    (∀ i, i < (if A.dims.length = 2 then 1 else A.dims.getD 2 0) →
      ((matlab2eigen3 mem A mode).1).read (mem.next + i)
        = ((mem.read A.buf).drop
            (i * (A.dims.getD 0 0 * A.dims.getD 1 0))).take
            (A.dims.getD 0 0 * A.dims.getD 1 0)) := by
  cases mode with
  | false =>
    obtain ⟨hl, hn, hf, hr⟩ := mapChannelsIn_spec (A.dims.getD 0 0)
      (A.dims.getD 1 0) (mem.read A.buf)
      (if A.dims.length = 2 then 1 else A.dims.getD 2 0) mem 0
    refine ⟨hl, hn, hf, ?_⟩
    intro i hi
    have h := hr i hi
    rw [Nat.zero_add] at h
    exact h
  | true =>
    obtain ⟨hl, hn, hf, hr⟩ := copyChannelsIn_spec (A.dims.getD 0 0)
      (A.dims.getD 1 0) (mem.read A.buf)
      (if A.dims.length = 2 then 1 else A.dims.getD 2 0) mem 0
    refine ⟨hl, hn, hf, ?_⟩
    intro i hi
    have h := hr i hi
    rw [Nat.zero_add] at h
    exact h

/-! ### Claim C6: the 3D export layout -/

/-- C6: `exportTensor` reads rows and cols from channel 0, allocates a 3D
`mxArray` with dims `[rows, cols, nchannels]`, and copies the channels in
order into consecutive regions: channel `k`'s data occupies the
`rows * cols` elements at flat element offset `k * rows * cols` of the
array's buffer (equivalently, byte offset `k * rows * cols * sizeof(T)`). -/
theorem exportTensor_layout (α : Type) [Zero α] (ct : CType) (mem : Mem α)
    (C : List EigenMatrix) (r c : Nat) (hne : C ≠ [])
    (hshape : ∀ ch ∈ C, ch.rows = r ∧ ch.cols = c)
    (hlen : ∀ ch ∈ C, (mem.read ch.buf).length = r * c)
    (hbuf : ∀ ch ∈ C, ch.buf < mem.next) :
    ((eigen2matlab3 ct mem C).2).dims = [r, c, C.length] ∧
    (∀ k, ∀ hk : k < C.length,
      ((((eigen2matlab3 ct mem C).1).read
          ((eigen2matlab3 ct mem C).2).buf).drop (k * (r * c))).take (r * c)
        = mem.read (C.get ⟨k, hk⟩).buf) := by
  obtain ⟨hA, hnext, hread, -⟩ :=
    eigen2matlab3_spec ct mem C r c hne hshape hlen hbuf
  constructor
  · rw [hA]
  · intro k hk
    have hbufA : ((eigen2matlab3 ct mem C).2).buf = mem.next := by rw [hA]
    rw [hbufA, hread]
    have hmaplen : ∀ s ∈ C.map (fun ch => mem.read ch.buf),
        s.length = r * c := by
      intro s hs
      obtain ⟨ch, hch, rfl⟩ := List.mem_map.mp hs
      exact hlen ch hch
    have hk2 : k < (C.map fun ch => mem.read ch.buf).length := by
      rw [List.length_map]; exact hk
    rw [flatten_uniform_extract (r * c) _ hmaplen k hk2]
    rw [List.get_eq_getElem, List.get_eq_getElem, List.getElem_map]

/-- C6 witness: exporting the two concrete channels of `memEx2` puts
channel 1's column-major data at flat element offset `1 * (2 * 2)`. -/
theorem exportTensor_layout_witness :
    ((eigen2matlab3 CType.cFloat memEx2 chansEx).2).dims = [2, 2, 2] ∧
    ((((eigen2matlab3 CType.cFloat memEx2 chansEx).1).read
        ((eigen2matlab3 CType.cFloat memEx2 chansEx).2).buf).drop
        (1 * (2 * 2))).take (2 * 2)
      = [5, 7, 6, 8] := by
  have h := exportTensor_layout Int CType.cFloat memEx2 chansEx 2 2
    (by decide) (by decide) (by decide) (by decide)
  exact ⟨h.1, h.2 1 (by decide)⟩

/-! ### Claim C2: the 3D round trip -/

/-- C2: importing the export of a uniform-shape non-empty channel list in
Copy mode returns a list with one matrix per channel; channel `k` has the
channels' common rows and cols and holds exactly channel `k`'s elements. -/
theorem roundtrip_tensor_copy (α : Type) [Zero α] (ct : CType) (mem : Mem α)
    (C : List EigenMatrix) (r c : Nat) (hne : C ≠ [])
    (hshape : ∀ ch ∈ C, ch.rows = r ∧ ch.cols = c)
    (hlen : ∀ ch ∈ C, (mem.read ch.buf).length = r * c)
    (hbuf : ∀ ch ∈ C, ch.buf < mem.next) :
    ((roundTripTensor ct mem C).2).length = C.length ∧
    (∀ k, ∀ hk : k < C.length,
      (((roundTripTensor ct mem C).2).getD k ⟨0, 0, 0⟩).rows = r ∧
      (((roundTripTensor ct mem C).2).getD k ⟨0, 0, 0⟩).cols = c ∧
      ((roundTripTensor ct mem C).1).read
          ((((roundTripTensor ct mem C).2).getD k ⟨0, 0, 0⟩)).buf
        = mem.read (C.get ⟨k, hk⟩).buf) := by
  obtain ⟨hA, hnext1, hread1, -⟩ :=
    eigen2matlab3_spec ct mem C r c hne hshape hlen hbuf
  obtain ⟨hl, hn, hf, hr⟩ :=
    matlab2eigen3_spec (eigen2matlab3 ct mem C).1 (eigen2matlab3 ct mem C).2
      true
  have hch : (if ((eigen2matlab3 ct mem C).2).dims.length = 2 then 1
      else ((eigen2matlab3 ct mem C).2).dims.getD 2 0) = C.length := by
    rw [hA]; rfl
  have hd0 : ((eigen2matlab3 ct mem C).2).dims.getD 0 0 = r := by rw [hA]; rfl
  have hd1 : ((eigen2matlab3 ct mem C).2).dims.getD 1 0 = c := by rw [hA]; rfl
  have hbufA : ((eigen2matlab3 ct mem C).2).buf = mem.next := by rw [hA]
  constructor
  · show ((matlab2eigen3 (eigen2matlab3 ct mem C).1
        (eigen2matlab3 ct mem C).2 true).2).length = C.length
    rw [hl, List.length_map, List.length_range, hch]
  · intro k hk
    have hk' : k < (if ((eigen2matlab3 ct mem C).2).dims.length = 2 then 1
        else ((eigen2matlab3 ct mem C).2).dims.getD 2 0) := by
      rw [hch]; exact hk
    have hget : ((matlab2eigen3 (eigen2matlab3 ct mem C).1
          (eigen2matlab3 ct mem C).2 true).2).getD k ⟨0, 0, 0⟩
        = ⟨((eigen2matlab3 ct mem C).2).dims.getD 0 0,
           ((eigen2matlab3 ct mem C).2).dims.getD 1 0,
           ((eigen2matlab3 ct mem C).1).next + k⟩ := by
      rw [hl, List.getD_eq_getElem?_getD, List.getElem?_map,
        List.getElem?_range hk']
      rfl
    refine ⟨?_, ?_, ?_⟩
    · show (((matlab2eigen3 (eigen2matlab3 ct mem C).1
          (eigen2matlab3 ct mem C).2 true).2).getD k ⟨0, 0, 0⟩).rows = r
      rw [hget]
      exact hd0
    · show (((matlab2eigen3 (eigen2matlab3 ct mem C).1
          (eigen2matlab3 ct mem C).2 true).2).getD k ⟨0, 0, 0⟩).cols = c
      rw [hget]
      exact hd1
    · show ((matlab2eigen3 (eigen2matlab3 ct mem C).1
          (eigen2matlab3 ct mem C).2 true).1).read
          (((matlab2eigen3 (eigen2matlab3 ct mem C).1
            (eigen2matlab3 ct mem C).2 true).2).getD k ⟨0, 0, 0⟩).buf = _
      rw [hget]
      show ((matlab2eigen3 (eigen2matlab3 ct mem C).1
          (eigen2matlab3 ct mem C).2 true).1).read
          (((eigen2matlab3 ct mem C).1).next + k) = _
      rw [hr k hk', hbufA, hread1, hd0, hd1]
      have hmaplen : ∀ s ∈ C.map (fun ch => mem.read ch.buf),
          s.length = r * c := by
        intro s hs
        obtain ⟨ch, hch2, rfl⟩ := List.mem_map.mp hs
        exact hlen ch hch2
      have hk2 : k < (C.map fun ch => mem.read ch.buf).length := by
        rw [List.length_map]; exact hk
      rw [flatten_uniform_extract (r * c) _ hmaplen k hk2]
      rw [List.get_eq_getElem, List.get_eq_getElem, List.getElem_map]

/-- C2 witness: the two concrete 2 x 2 channels of `memEx2` survive the
tensor export / Copy-import round trip: two channels come back and channel
1 holds channel B's column-major data. -/
theorem roundtrip_tensor_copy_witness :
    ((roundTripTensor CType.cFloat memEx2 chansEx).2).length = 2 ∧
    ((roundTripTensor CType.cFloat memEx2 chansEx).1).read
        ((((roundTripTensor CType.cFloat memEx2 chansEx).2).getD 1
          ⟨0, 0, 0⟩)).buf
      = [5, 7, 6, 8] := by
  have h := roundtrip_tensor_copy Int CType.cFloat memEx2 chansEx 2 2
    (by decide) (by decide) (by decide) (by decide)
  exact ⟨h.1, (h.2 1 (by decide)).2.2⟩

/-! ### Claim C9: the 3D import's channel rule -/

/-- C9 counterexample: a 4-dimensional 1 x 1 x 2 x 3 `mxArray` does not
have a 3-entry shape descriptor, yet the tensor import returns 2 channels
(`dims[2]`), not the single channel the claim's "1 otherwise" requires. -/
theorem importTensor_channels_counterexample :
    arr4d.dims.length = 4 ∧
    ((matlab2eigen3 memEmpty arr4d true).2).length = 2 ∧
    (2 : Nat) ≠ 1 := by
  decide

/-- C9 (amended): the tensor import takes the channel count to be 1 only
when the array has exactly 2 dimensions, and `dims[2]` otherwise (so a 4-D
array yields `dims[2]` channels, not 1); it returns exactly that many
matrices; and channel `k` — in Copy mode and in View mode alike, since the
`Map` assignment also copies — is a fresh matrix whose buffer is distinct
from the array's and holds the `rows * cols` source elements at flat
offset `k * rows * cols`. -/
theorem importTensor_channels_amended (α : Type) [Zero α] (mem : Mem α)
    (A : MxArray) (mode : Bool) (hbuf : A.buf < mem.next) :
    ((matlab2eigen3 mem A mode).2).length
        = (if A.dims.length = 2 then 1 else A.dims.getD 2 0) ∧
    (∀ k, k < (if A.dims.length = 2 then 1 else A.dims.getD 2 0) →
      ((matlab2eigen3 mem A mode).2).getD k ⟨0, 0, 0⟩
          = ⟨A.dims.getD 0 0, A.dims.getD 1 0, mem.next + k⟩ ∧
      (((matlab2eigen3 mem A mode).2).getD k ⟨0, 0, 0⟩).buf ≠ A.buf ∧
      ((matlab2eigen3 mem A mode).1).read (mem.next + k)
        = ((mem.read A.buf).drop
            (k * (A.dims.getD 0 0 * A.dims.getD 1 0))).take
            (A.dims.getD 0 0 * A.dims.getD 1 0)) := by
  obtain ⟨hl, hn, hf, hr⟩ := matlab2eigen3_spec mem A mode
  constructor
  · rw [hl, List.length_map, List.length_range]
  · intro k hk
    have hget : ((matlab2eigen3 mem A mode).2).getD k ⟨0, 0, 0⟩
        = ⟨A.dims.getD 0 0, A.dims.getD 1 0, mem.next + k⟩ := by
      rw [hl, List.getD_eq_getElem?_getD, List.getElem?_map,
        List.getElem?_range hk]
      rfl
    refine ⟨hget, ?_, hr k hk⟩
    rw [hget]
    show mem.next + k ≠ A.buf
    omega

/-- C9 witness: the amended channel rule at the concrete 2 x 2 array — one
channel comes back, as a fresh matrix holding the array's whole buffer. -/
theorem importTensor_channels_amended_witness :
    ((matlab2eigen3 memEx arrEx true).2).length = 1 ∧
    ((matlab2eigen3 memEx arrEx true).2).getD 0 ⟨0, 0, 0⟩ = ⟨2, 2, 1⟩ ∧
    (((matlab2eigen3 memEx arrEx true).2).getD 0 ⟨0, 0, 0⟩).buf ≠ arrEx.buf ∧
    ((matlab2eigen3 memEx arrEx true).1).read (memEx.next + 0)
      = [1, 3, 2, 4] := by
  have h := importTensor_channels_amended Int memEx arrEx true (by decide)
  exact ⟨h.1, (h.2 0 (by decide)).1, (h.2 0 (by decide)).2.1,
    (h.2 0 (by decide)).2.2⟩

/-! ### Claim C10: the two Copy-mode import paths agree on 2D arrays -/

/-- C10: on a 2-dimensional `mxArray` the Copy-mode tensor import returns
exactly the singleton list of the matrix the Copy-mode 2D import returns,
and the two matrices' buffers hold the same contents in their respective
final stores. -/
theorem importTensor_agrees_importMatrix (α : Type) [Zero α] (mem : Mem α)
    (A : MxArray) (h2 : A.dims.length = 2) :
    (matlab2eigen3 mem A true).2 = [(matlab2eigen mem A true).2] ∧
    ((matlab2eigen3 mem A true).1).read ((matlab2eigen mem A true).2).buf
      = ((matlab2eigen mem A true).1).read
          ((matlab2eigen mem A true).2).buf := by
  obtain ⟨d0, d1, hd⟩ := List.length_eq_two.mp h2
  obtain ⟨hl, hn, hf, hr⟩ := matlab2eigen3_spec mem A true
  obtain ⟨hM, hnext, hread, -⟩ := matlab2eigen_copy_spec mem A
  have hch : (if A.dims.length = 2 then 1 else A.dims.getD 2 0) = 1 := by
    rw [h2]; rfl
  have hd0 : A.dims.getD 0 0 = d0 := by rw [hd]; rfl
  have hd1 : A.dims.getD 1 0 = d1 := by rw [hd]; rfl
  have hgM : mxGetM A = d0 := hd0
  have hgN : mxGetN A = d1 := by
    show (A.dims.drop 1).prod = d1
    rw [hd]
    simp
  have h0 : 0 < (if A.dims.length = 2 then 1 else A.dims.getD 2 0) := by
    rw [hch]
    exact Nat.one_pos
  constructor
  · rw [hl, hch, hM]
    simp [List.range_succ, hgM, hgN]
    constructor
    · rw [hd]; rfl
    · rw [hd]; rfl
  · have hMbuf : ((matlab2eigen mem A true).2).buf = mem.next := by rw [hM]
    rw [hMbuf, hread]
    have hr0 := hr 0 h0
    rw [Nat.add_zero, Nat.zero_mul, List.drop_zero] at hr0
    rw [hr0, hd0, hd1, hgM, hgN]

/-- C10 witness: the two Copy-mode import paths at the concrete 2 x 2
array over buffer `[1, 3, 2, 4]`. -/
theorem importTensor_agrees_importMatrix_witness :
    (matlab2eigen3 memEx arrEx true).2 = [(matlab2eigen memEx arrEx true).2] ∧
    ((matlab2eigen3 memEx arrEx true).1).read
        ((matlab2eigen memEx arrEx true).2).buf
      = ((matlab2eigen memEx arrEx true).1).read
          ((matlab2eigen memEx arrEx true).2).buf :=
  importTensor_agrees_importMatrix Int memEx arrEx (by decide)
